import Mathlib

set_option maxRecDepth 8000
set_option maxHeartbeats 1600000

/-!
Verification of the gitmit message-synthesis engine (diff analyzer,
template scorer/selector, message formatter) against its specification.

The Go code is shallowly embedded: Go strings become lists of characters
(`Str`), Go ints become `Int`, Go float64 arithmetic (used only for small
half-integer score weights and for ratio comparisons against constant
thresholds, all far from the rounding granularity of float64 at the
denominators that can occur) is modelled exactly with `ℚ`, Go maps become
association lists iterated in source order (Go map iteration order is
unspecified; theorems relying on an order are flagged in their comments),
and the one external collaborator reached from the analyzer
(history.GetRecentCommitContext) is passed in as an oracle string
parameter, the empty string standing for "error or no scope".
-/

namespace Gitmit

/-- Str models a Go string as its list of characters (all inputs of
interest are ASCII, where Go byte indexing and character indexing agree). -/
abbrev Str := List Char

/-- strL converts a Lean string literal to the Str model. -/
def strL (s : String) : Str := s.toList

/-- hasSub models strings.Contains(s, pat). -/
def hasSub (s pat : Str) : Bool :=
  match s with
  | [] => pat.isEmpty
  | _ :: rest => pat.isPrefixOf s || hasSub rest pat

/-- countSubAux is the scanning loop of countSub, structural in a fuel
argument so that it reduces inside the kernel; every recursive call
shortens the text by at least one character while spending exactly one
unit of fuel, so a fuel equal to the initial length never runs out (the
fuel-zero arm is unreachable for the wrapper below). -/
def countSubAux (pat : Str) : Nat → Str → Nat
  | _, [] => 0
  | 0, _ => 0
  | n + 1, c :: rest =>
    if pat.isPrefixOf (c :: rest) then 1 + countSubAux pat n ((c :: rest).drop pat.length)
    else countSubAux pat n rest

/-- countSub models strings.Count(s, pat): the number of non-overlapping
occurrences of pat in s; for an empty pattern, 1 + the length of s. -/
def countSub (s pat : Str) : Nat :=
  if pat = [] then s.length + 1 else countSubAux pat s.length s

/-- replaceAllAux is the scanning loop of replaceAll, structural in a fuel
argument for kernel reducibility; fuel equal to the text length suffices
as in countSubAux (pat is non-empty at every use). -/
def replaceAllAux (pat rep : Str) : Nat → Str → Str
  | _, [] => []
  | 0, s => s
  | n + 1, c :: rest =>
    if pat.isPrefixOf (c :: rest) then rep ++ replaceAllAux pat rep n ((c :: rest).drop pat.length)
    else c :: replaceAllAux pat rep n rest

/-- replaceAll models strings.ReplaceAll(s, pat, rep) for a non-empty
pattern (every use in the sources has a non-empty literal pattern; the Go
empty-pattern behaviour of interleaving rep between characters is unused). -/
def replaceAll (pat rep : Str) (s : Str) : Str :=
  if pat = [] then s else replaceAllAux pat rep s.length s

/-- toLowerS models strings.ToLower on ASCII text. -/
def toLowerS (s : Str) : Str := s.map Char.toLower

/-- isSpaceCh models unicode.IsSpace restricted to the ASCII whitespace
characters (space, tab, newline, vertical tab, form feed, carriage return). -/
def isSpaceCh (c : Char) : Bool :=
  c = ' ' || c = '\t' || c = '\n' || c = '\x0b' || c = '\x0c' || c = '\r'

/-- trimSpace models strings.TrimSpace on ASCII text. -/
def trimSpace (s : Str) : Str :=
  ((s.dropWhile isSpaceCh).reverse.dropWhile isSpaceCh).reverse

/-- dropPreStr models strings.TrimPrefix(s, pat). -/
def dropPreStr (s pat : Str) : Str :=
  if pat.isPrefixOf s then s.drop pat.length else s

/-- dropSufStr models strings.TrimSuffix(s, suf). -/
def dropSufStr (s suf : Str) : Str :=
  if suf.isSuffixOf s then s.take (s.length - suf.length) else s

/-- idxSub models strings.Index(s, sub): index of the leftmost occurrence,
or -1 when absent. -/
def idxSub (s sub : Str) : Int :=
  match s with
  | [] => if sub.isEmpty then 0 else -1
  | _ :: rest =>
    if sub.isPrefixOf s then 0
    else
      let r := idxSub rest sub
      if r < 0 then -1 else r + 1

/-- lastIdxSub models strings.LastIndex(s, sub): index of the rightmost
occurrence, or -1 when absent. -/
def lastIdxSub (s sub : Str) : Int :=
  match s with
  | [] => if sub.isEmpty then 0 else -1
  | _ :: rest =>
    let r := lastIdxSub rest sub
    if 0 ≤ r then r + 1
    else if sub.isPrefixOf s then 0 else -1

/-- splitAllAux is the accumulator loop of splitAll, structural in a fuel
argument for kernel reducibility (fuel equal to the text length suffices,
as in countSubAux); acc holds the current segment reversed. -/
def splitAllAux (sep : Str) : Nat → Str → Str → List Str
  | _, acc, [] => [acc.reverse]
  | 0, acc, s => [acc.reverse ++ s]
  | n + 1, acc, c :: rest =>
    if sep ≠ [] ∧ sep.isPrefixOf (c :: rest) then
      acc.reverse :: splitAllAux sep n [] ((c :: rest).drop sep.length)
    else splitAllAux sep n (c :: acc) rest

/-- splitAll models strings.Split(s, sep) for a non-empty separator (the
empty-separator case, splitting into single characters, is modelled
directly and unused by the claims). -/
def splitAll (sep : Str) (s : Str) : List Str :=
  if sep = [] then s.map (fun c => [c]) else splitAllAux sep s.length [] s

/-- splitN2Aux is the scanning loop of splitN2. -/
def splitN2Aux (sep : Str) (acc : Str) (s : Str) : List Str :=
  match s with
  | [] => [acc.reverse]
  | c :: rest =>
    if sep ≠ [] ∧ sep.isPrefixOf (c :: rest) then
      [acc.reverse, (c :: rest).drop sep.length]
    else splitN2Aux sep (c :: acc) rest

/-- splitN2 models strings.SplitN(s, sep, 2) for a non-empty separator. -/
def splitN2 (sep : Str) (s : Str) : List Str :=
  if sep = [] then [s] else splitN2Aux sep [] s

/-- joinSep models strings.Join(parts, sep). -/
def joinSep (sep : Str) : List Str → Str
  | [] => []
  | [x] => x
  | x :: y :: rest => x ++ sep ++ joinSep sep (y :: rest)

/-- goFieldsAux is the scanning loop of goFields; acc holds the current
field reversed. -/
def goFieldsAux (acc : Str) (s : Str) : List Str :=
  match s with
  | [] => if acc = [] then [] else [acc.reverse]
  | c :: rest =>
    if isSpaceCh c then
      if acc = [] then goFieldsAux [] rest else acc.reverse :: goFieldsAux [] rest
    else goFieldsAux (c :: acc) rest

/-- goFields models strings.Fields: split around runs of whitespace. -/
def goFields (s : Str) : List Str := goFieldsAux [] s

/-- dropCR removes one trailing carriage return, as bufio.ScanLines does. -/
def dropCR (l : Str) : Str :=
  if l.getLast? = some '\r' then l.dropLast else l

/-- goLines models iterating a bufio.Scanner over the text line by line:
split at newlines, drop the empty token after a trailing newline, and
strip one trailing carriage return per line. -/
def goLines (s : Str) : List Str :=
  let parts := splitAll ['\n'] s
  let kept := if parts.getLast? = some [] then parts.dropLast else parts
  kept.map dropCR

/-- extRev is the backwards scan of extOf; acc holds the characters already
passed over, in forward order. -/
def extRev (acc : Str) (s : Str) : Str :=
  match s with
  | [] => []
  | c :: rest =>
    if c = '/' then []
    else if c = '.' then '.' :: acc
    else extRev (c :: acc) rest

/-- extOf models filepath.Ext: the suffix starting at the final dot in the
final slash-separated element, or empty when there is none. -/
def extOf (path : Str) : Str := extRev [] path.reverse

/-- baseOf models filepath.Base: the last element of the path after
removing trailing slashes; "." for the empty path, "/" when the path is
all slashes. -/
def baseOf (path : Str) : Str :=
  if path = [] then ['.']
  else
    let p := (path.reverse.dropWhile (fun c => c = '/')).reverse
    if p = [] then ['/']
    else (p.reverse.takeWhile (fun c => ¬ (c = '/'))).reverse

/-- cleanPath models path/filepath.Clean on slash-separated paths: collapse
repeated separators, drop "." elements, resolve ".." against preceding
elements (keeping leading ".." in relative paths, dropping it at the root),
"." for an empty result. -/
def cleanPath (path : Str) : Str :=
  if path = [] then ['.']
  else
    let rooted := path.head? = some '/'
    let comps := (splitAll ['/'] path).filter (fun c => ¬ (c = [] ∨ c = ['.']))
    let outs := comps.foldl (fun out c =>
      if c = ['.', '.'] then
        if out ≠ [] ∧ out.getLast? ≠ some ['.', '.'] then out.dropLast
        else if rooted then out
        else out ++ [c]
      else out ++ [c]) []
    let joined := joinSep ['/'] outs
    if rooted then '/' :: joined
    else if joined = [] then ['.'] else joined

/-- dirOf models filepath.Dir: everything up to the final slash, cleaned;
"." when there is no slash. -/
def dirOf (path : Str) : Str :=
  cleanPath (path.take (lastIdxSub path ['/'] + 1).toNat)

/-- lexLt is bytewise lexicographic comparison of ASCII strings, the order
used by the Go string less-than operator. -/
def lexLt : Str → Str → Bool
  | [], [] => false
  | [], _ :: _ => true
  | _ :: _, [] => false
  | x :: xs, y :: ys => if x < y then true else if y < x then false else lexLt xs ys

/-- insertStr inserts a string into an ascending list (insertion step of
sortStrs). -/
def insertStr (x : Str) : List Str → List Str
  | [] => [x]
  | y :: ys => if lexLt x y then x :: y :: ys else y :: insertStr x ys

/-- sortStrs sorts strings ascending; it models the exchange sort the
analyzer performs on the topic list (identical output on lists with
distinct elements). -/
def sortStrs : List Str → List Str
  | [] => []
  | x :: xs => insertStr x (sortStrs xs)

/-- uniqAux is the seen-set loop of uniqueStrings. -/
def uniqAux (seen : List Str) : List Str → List Str
  | [] => []
  | v :: rest => if v ∈ seen then uniqAux seen rest else v :: uniqAux (v :: seen) rest

/-- uniqueStrings models the analyzer helper of the same name: deduplicate,
keeping first occurrences in order. -/
def uniqueStrings (s : List Str) : List Str := uniqAux [] s

/-- containsStr models the analyzer helper contains(slice, item). -/
def containsStr : List Str → Str → Bool
  | [], _ => false
  | s :: rest, item => if s = item then true else containsStr rest item

end Gitmit

namespace Gitmit

/-- Change models parser.Change: one staged file edit as handed to the
analyzer by the VCS collaborator. -/
structure Change where
  File : Str := []
  Action : Str := []
  Added : Int := 0
  Removed : Int := 0
  IsMajor : Bool := false
  IsRename : Bool := false
  IsCopy : Bool := false
  Source : Str := []
  Target : Str := []
  Diff : Str := []
  FileExtension : Str := []
deriving DecidableEq

/-- Config models config.Config as consumed by the analyzer. Go maps are
association lists iterated in the listed order (Go map iteration order is
unspecified); the Templates field is not consumed by the analyzer and is
omitted. Default-config behaviour corresponds to empty lists and a
threshold of 1/2. -/
structure Config where
  TopicMappings : List (Str × Str) := []
  KeywordMappings : List (Str × Str) := []
  ProjectType : Str := []
  Keywords : List (Str × List (Str × Int)) := []
  DiffStatThreshold : ℚ := mkRat 1 2
deriving DecidableEq

/-- CommitMessage models analyzer.CommitMessage; field defaults are the Go
zero values, so partial record literals correspond to the Go composite
literals in the smart-fallback returns. -/
structure CommitMessage where
  Action : Str := []
  Topic : Str := []
  Item : Str := []
  Purpose : Str := []
  Scope : Str := []
  IsMajor : Bool := false
  TotalAdded : Int := 0
  TotalRemoved : Int := 0
  FileExtensions : List Str := []
  RenamedFiles : List Change := []
  CopiedFiles : List Change := []
  IsDocsOnly : Bool := false
  IsConfigOnly : Bool := false
  IsDepsOnly : Bool := false
  DetectedFunctions : List Str := []
  DetectedStructs : List Str := []
  DetectedMethods : List Str := []
  ChangePatterns : List Str := []
deriving DecidableEq

/-- findMapping models the TopicMappings scan in determineTopic: first
entry whose key occurs in the path wins (Go iterates the map in
unspecified order; an order-independent use needs at most one match). -/
def findMapping : List (Str × Str) → Str → Option Str
  | [], _ => none
  | kv :: rest, path => if hasSub path kv.1 then some kv.2 else findMapping rest path

/-- scanInternalPkg models the first loop of determineTopic: the element
right after the first "internal" or "pkg" element, when one exists. -/
def scanInternalPkg : List Str → Option Str
  | [] => none
  | [_] => none
  | p :: q :: rest =>
    if p = strL "internal" ∨ p = strL "pkg" then some q
    else scanInternalPkg (q :: rest)

/-- scanLastSpecific models the descending loop of determineTopic: the
last element that is neither "." nor "src". -/
def scanLastSpecific (parts : List Str) : Option Str :=
  parts.reverse.find? (fun p => decide (¬ (p = ['.'] ∨ p = strL "src")))

/-- determineTopic models Analyzer.determineTopic (analyzer, current
variant): config mapping first, then the directory-derived heuristics. -/
def determineTopic (cfg : Config) (path : Str) : Str :=
  match findMapping cfg.TopicMappings path with
  | some topic => topic
  | none =>
    let parts := splitAll ['/'] (dirOf path)
    match scanInternalPkg parts with
    | some t => t
    | none =>
      match scanLastSpecific parts with
      | some t => t
      | none =>
        match parts with
        | p0 :: _ => if p0 ≠ ['.'] then p0 else strL "core"
        | [] => strL "core"

/-- determineItem models Analyzer.determineItem: the base name of the path
with its extension removed. -/
def determineItem (path : Str) : Str := dropSufStr (baseOf path) (extOf path)

/-- findLowerMapping models the KeywordMappings scan in determinePurpose:
case-insensitive containment of the key in the diff. -/
def findLowerMapping : List (Str × Str) → Str → Option Str
  | [], _ => none
  | kv :: rest, diff =>
    if hasSub (toLowerS diff) (toLowerS kv.1) then some kv.2 else findLowerMapping rest diff

/-- purposeKeywords is the fixed keyword-to-purpose table of
determinePurpose, in source order (the Go map is iterated in unspecified
order; order matters only for diffs containing several keywords). -/
def purposeKeywords : List (Str × Str) :=
  [(strL "login", strL "authentication"),
   (strL "auth", strL "authentication"),
   (strL "user", strL "user management"),
   (strL "validate", strL "validation"),
   (strL "validation", strL "validation"),
   (strL "query", strL "database query"),
   (strL "database", strL "database operations"),
   (strL "cache", strL "caching"),
   (strL "caching", strL "caching"),
   (strL "refactor", strL "code restructuring"),
   (strL "logging", strL "logging"),
   (strL "logger", strL "logging"),
   (strL "docs", strL "documentation"),
   (strL "readme", strL "documentation"),
   (strL "middleware", strL "middleware"),
   (strL "test", strL "testing"),
   (strL "tests", strL "testing"),
   (strL "config", strL "configuration"),
   (strL "ci", strL "ci/cd"),
   (strL "log", strL "logging"),
   (strL "sql", strL "database logic"),
   (strL "gorm", strL "database logic"),
   (strL "feat", strL "new feature"),
   (strL "bug", strL "bug fix"),
   (strL "fix", strL "bug fix"),
   (strL "hotfix", strL "bug fix"),
   (strL "cleanup", strL "code cleanup"),
   (strL "perf", strL "performance improvement"),
   (strL "performance", strL "performance improvement"),
   (strL "security", strL "security update"),
   (strL "dep", strL "dependency update"),
   (strL "dependency", strL "dependency update"),
   (strL "build", strL "build system"),
   (strL "style", strL "code style"),
   (strL "serialize", strL "serialization"),
   (strL "deserialize", strL "deserialization"),
   (strL "json", strL "data handling"),
   (strL "xml", strL "data handling"),
   (strL "async", strL "asynchronous operations"),
   (strL "await", strL "asynchronous operations"),
   (strL "concurrent", strL "concurrency"),
   (strL "parallel", strL "parallel processing"),
   (strL "api", strL "api endpoints"),
   (strL "endpoint", strL "api endpoints"),
   (strL "route", strL "routing"),
   (strL "ui", strL "user interface"),
   (strL "frontend", strL "user interface"),
   (strL "backend", strL "backend logic"),
   (strL "server", strL "server logic"),
   (strL "client", strL "client logic"),
   (strL "docker", strL "docker configuration"),
   (strL "kubernetes", strL "kubernetes configuration"),
   (strL "k8s", strL "kubernetes configuration"),
   (strL "aws", strL "aws integration"),
   (strL "gcp", strL "gcp integration"),
   (strL "azure", strL "azure integration"),
   (strL "error", strL "error handling"),
   (strL "exception", strL "error handling")]

/-- determinePurpose models Analyzer.determinePurpose: config keyword
mappings first, then the fixed keyword table, default "general update". -/
def determinePurpose (cfg : Config) (diff : Str) : Str :=
  match findLowerMapping cfg.KeywordMappings diff with
  | some p => p
  | none =>
    match purposeKeywords.find? (fun kv => hasSub (toLowerS diff) kv.1) with
    | some kv => kv.2
    | none => strL "general update"

/-- detectIncreasedLogging models Analyzer.detectIncreasedLogging: some
added line mentions "log." or "fmt.Print". -/
def detectIncreasedLogging (diff : Str) : Bool :=
  (goLines diff).any (fun line =>
    (['+'].isPrefixOf line) && (hasSub line (strL "log.") || hasSub line (strL "fmt.Print")))

/-- detectRemovedFunctions models Analyzer.detectRemovedFunctions: some
removed line mentions "func ". -/
def detectRemovedFunctions (diff : Str) : Bool :=
  (goLines diff).any (fun line =>
    (['-'].isPrefixOf line) && hasSub line (strL "func "))

/-- styleLineCount is the per-line update of isStyleChange, accumulating
(total changed lines, style-only changed lines). -/
def styleLineCount (acc : Nat × Nat) (line : Str) : Nat × Nat :=
  if (['+'].isPrefixOf line) ∨ (['-'].isPrefixOf line) then
    let trimmed := trimSpace line.tail
    let isStyle :=
      trimmed = [] ∨ trimSpace trimmed = [] ∨
      (strL "//").isPrefixOf trimmed ∨
      hasSub trimmed (strL "import") ∨
      trimmed = ['\x7b'] ∨ trimmed = ['\x7d'] ∨ trimmed = ['('] ∨ trimmed = [')']
    (acc.1 + 1, if isStyle then acc.2 + 1 else acc.2)
  else acc

/-- isStyleChange models Analyzer.isStyleChange: more than 70 percent of
the changed lines are whitespace, comment, import or lone-bracket lines.
The source compares float64(style)/float64(total) > 0.7; for the
nonnegative line counts involved that is exactly 7 * total < 10 * style,
the form used here (float64 is exact on these counts and its correctly
rounded division cannot cross the constant threshold). -/
def isStyleChange (diff : Str) : Bool :=
  let counts := (goLines diff).foldl styleLineCount (0, 0)
  decide (0 < counts.1 ∧ 7 * counts.1 < 10 * counts.2)

/-- cutFirstDelim is the delimiter loop shared by the struct and class
extraction branches: cut at the first listed delimiter occurring at a
positive index (loop order, not leftmost occurrence). -/
def cutFirstDelim (delims : List Str) (s : Str) : Str :=
  match delims with
  | [] => s
  | d :: rest => if 0 < idxSub s d then s.take (idxSub s d).toNat else cutFirstDelim rest s

/-- firstContained returns the first candidate substring contained in s,
modelling the prefix and modifier loops of the detectors. -/
def firstContained : List Str → Str → Option Str
  | [], _ => none
  | c :: rest, s => if hasSub s c then some c else firstContained rest s

end Gitmit

namespace Gitmit

/-- fnGoLine is the Go-function branch of detectFunctions for one cleaned
added line: either a receiver method name or a plain function name. -/
def fnGoLine (cl : Str) : List Str :=
  if (strL "func ").isPrefixOf cl ∧ hasSub cl (strL "(") then
    if (cl.drop 5).head? = some '(' then
      match splitN2 [')'] (cl.drop 5) with
      | [_, p1] =>
        let methodPart := trimSpace p1
        if 0 < idxSub methodPart (strL "(") then
          let mn := trimSpace (methodPart.take (idxSub methodPart (strL "(")).toNat)
          if mn ≠ [] then [mn] else []
        else []
      | _ => []
    else
      match goFields cl with
      | _ :: p1 :: _ =>
        let fn := (splitAll (strL "(") p1).headD []
        if fn ≠ [] then [fn] else []
      | _ => []
  else []

/-- fnJsLine is the JavaScript-function branch of detectFunctions. -/
def fnJsLine (cl : Str) : List Str :=
  if hasSub cl (strL "function ") then
    let idx := idxSub cl (strL "function ")
    if 0 ≤ idx then
      let remaining := cl.drop (idx + 9).toNat
      if 0 < idxSub remaining (strL "(") then
        let fn := trimSpace (remaining.take (idxSub remaining (strL "(")).toNat)
        if fn ≠ [] ∧ fn ≠ strL "function" then [fn] else []
      else []
    else []
  else []

/-- fnArrowLine is the arrow-function branch of detectFunctions. -/
def fnArrowLine (cl : Str) : List Str :=
  if hasSub cl (strL "=>") ∧
      (hasSub cl (strL "const ") ∨ hasSub cl (strL "let ") ∨ hasSub cl (strL "var ")) then
    match firstContained [strL "const ", strL "let ", strL "var "] cl with
    | some pre =>
      let remaining := cl.drop (idxSub cl pre + (pre.length : Int)).toNat
      if 0 < idxSub remaining ['='] then
        let fn := trimSpace (remaining.take (idxSub remaining ['=']).toNat)
        if fn ≠ [] then [fn] else []
      else []
    | none => []
  else []

/-- fnPyLine is the Python-function branch of detectFunctions. -/
def fnPyLine (cl : Str) : List Str :=
  if (strL "def ").isPrefixOf cl ∨ (strL "async def ").isPrefixOf cl then
    let remaining := if (strL "async def ").isPrefixOf cl then cl.drop 10 else cl.drop 4
    if 0 < idxSub remaining (strL "(") then
      let fn := trimSpace (remaining.take (idxSub remaining (strL "(")).toNat)
      if fn ≠ [] then [fn] else []
    else []
  else []

/-- fnJavaLine is the Java/C-style method branch of detectFunctions: the
first whitespace field containing a parenthesis whose name part is neither
empty nor a control keyword. -/
def fnJavaLine (cl : Str) : List Str :=
  if hasSub cl (strL "(") then
    match firstContained [strL "public ", strL "private ", strL "protected ", strL "static "] cl with
    | some _ =>
      ((goFields cl).filterMap (fun part =>
        if hasSub part (strL "(") then
          let fn := (splitAll (strL "(") part).headD []
          if fn ≠ [] ∧ fn ≠ strL "if" ∧ fn ≠ strL "for" ∧ fn ≠ strL "while" ∧ fn ≠ strL "switch"
          then some fn else none
        else none)).take 1
    | none => []
  else []

/-- detectFnLine applies every language branch of detectFunctions to one
raw diff line (added lines only, trimmed after removing the plus sign). -/
def detectFnLine (line : Str) : List Str :=
  if ¬ (['+'].isPrefixOf line) then []
  else
    let cl := trimSpace (dropPreStr line ['+'])
    fnGoLine cl ++ fnJsLine cl ++ fnArrowLine cl ++ fnPyLine cl ++ fnJavaLine cl

/-- detectFunctions models Analyzer.detectFunctions: per-language name
extraction over the added lines of one diff, deduplicated. -/
def detectFunctions (diff : Str) : List Str :=
  uniqueStrings (((goLines diff).map detectFnLine).flatten)

/-- stGoLine is the Go struct/interface branch of detectStructs. -/
def stGoLine (cl : Str) : List Str :=
  if (strL "type ").isPrefixOf cl ∧ (hasSub cl (strL "struct") ∨ hasSub cl (strL "interface")) then
    match goFields cl with
    | _ :: p1 :: _ => if p1 ≠ [] then [p1] else []
    | _ => []
  else []

/-- stJsLine is the JavaScript/TypeScript class branch of detectStructs. -/
def stJsLine (cl : Str) : List Str :=
  if (strL "class ").isPrefixOf cl ∨ (strL "export class ").isPrefixOf cl then
    let remaining := if (strL "export class ").isPrefixOf cl then cl.drop 13 else cl.drop 6
    let cn := trimSpace (cutFirstDelim [strL " ", strL "\x7b", strL "extends"] remaining)
    if cn ≠ [] then [cn] else []
  else []

/-- stPyLine is the Python class branch of detectStructs. -/
def stPyLine (cl : Str) : List Str :=
  if (strL "class ").isPrefixOf cl then
    let cn := trimSpace (cutFirstDelim [strL "(", strL ":"] (cl.drop 6))
    if cn ≠ [] then [cn] else []
  else []

/-- stJavaLine is the Java class branch of detectStructs. -/
def stJavaLine (cl : Str) : List Str :=
  if hasSub cl (strL "class ") then
    match firstContained
        [strL "public class ", strL "private class ", strL "protected class ", strL "abstract class "] cl with
    | some modif =>
      let remaining := cl.drop (idxSub cl modif + (modif.length : Int)).toNat
      let cn := trimSpace (cutFirstDelim [strL " ", strL "\x7b", strL "extends", strL "implements"] remaining)
      if cn ≠ [] then [cn] else []
    | none => []
  else []

/-- detectStLine applies every language branch of detectStructs to one raw
diff line (added lines only). -/
def detectStLine (line : Str) : List Str :=
  if ¬ (['+'].isPrefixOf line) then []
  else
    let cl := trimSpace (dropPreStr line ['+'])
    stGoLine cl ++ stJsLine cl ++ stPyLine cl ++ stJavaLine cl

/-- detectStructs models Analyzer.detectStructs, deduplicated. -/
def detectStructs (diff : Str) : List Str :=
  uniqueStrings (((goLines diff).map detectStLine).flatten)

/-- detectMethodLine is the per-line extraction of detectMethods: the name
after a Go receiver on a changed line. -/
def detectMethodLine (line : Str) : List Str :=
  if hasSub line (strL "func (") then
    if (['+'].isPrefixOf line) ∨ (['-'].isPrefixOf line) then
      let methodLine := trimSpace (dropPreStr (dropPreStr line ['+']) ['-'])
      if (strL "func (").isPrefixOf methodLine then
        match splitAll [')'] methodLine with
        | _ :: p1 :: _ =>
          let mn := trimSpace ((splitAll ['('] (trimSpace p1)).headD [])
          if mn ≠ [] then [mn] else []
        | _ => []
      else []
    else []
  else []

/-- detectMethods models Analyzer.detectMethods (the source does not
deduplicate here; the caller does). -/
def detectMethods (diff : Str) : List Str :=
  ((goLines diff).map detectMethodLine).flatten

/-- commentCount accumulates (added comment lines, removed comment lines)
for the documentation pattern of detectChangePatterns. -/
def commentCount (acc : Nat × Nat) (line : Str) : Nat × Nat :=
  ((if (['+'].isPrefixOf line) ∧ hasSub line (strL "//") then acc.1 + 1 else acc.1),
   (if (['-'].isPrefixOf line) ∧ hasSub line (strL "//") then acc.2 + 1 else acc.2))

/-- detectChangePatterns models Analyzer.detectChangePatterns: the ordered
list of heuristic signal labels detected in one change. -/
def detectChangePatterns (c : Change) : List Str :=
  let diff := c.Diff
  let cc := (goLines diff).foldl commentCount (0, 0)
  (if hasSub diff ['+'] ∧ (hasSub diff (strL "if err != nil") ∨ hasSub diff (strL "return err")) then
    [strL "error-handling"] else []) ++
  (if (strL "_test.go").isSuffixOf c.File ∧ hasSub diff (strL "+func Test") then
    [strL "test-addition"] else []) ++
  (if hasSub diff (strL "+import") ∨ hasSub diff (strL "-import") then
    [strL "import-changes"] else []) ++
  (if cc.2 < cc.1 ∧ 3 ≤ cc.1 then [strL "documentation"] else []) ++
  (if 10 < c.Added ∧ 10 < c.Removed then [strL "refactoring"] else []) ++
  (if hasSub c.File (strL "config") ∨ (strL ".json").isSuffixOf c.File ∨
      (strL ".yaml").isSuffixOf c.File ∨ (strL ".yml").isSuffixOf c.File then
    [strL "configuration"] else []) ++
  (if hasSub diff (strL "http.") ∨ hasSub diff (strL "router.") ∨
      hasSub diff (strL "endpoint") ∨ hasSub diff (strL "handler") then
    [strL "api-changes"] else []) ++
  (if hasSub diff (strL "sql") ∨ hasSub diff (strL "database") ∨
      hasSub diff (strL "query") ∨ hasSub diff (strL "gorm") then
    [strL "database"] else []) ++
  (if hasSub diff (strL "goroutine") ∨ hasSub diff (strL "sync.") ∨
      hasSub diff (strL "channel") ∨ hasSub diff (strL "concurrent") then
    [strL "performance"] else []) ++
  (if hasSub diff (strL "auth") ∨ hasSub diff (strL "token") ∨
      hasSub diff (strL "security") ∨ hasSub diff (strL "crypto") then
    [strL "security"] else []) ++
  (if hasSub diff (strL "+func (") ∧ hasSub diff (strL "interface") then
    [strL "interface-implementation"] else []) ++
  (if hasSub diff (strL "validate") ∨ hasSub diff (strL "Validate") ∨
      (hasSub diff (strL "if ") ∧ hasSub diff (strL "return")) then
    [strL "validation"] else []) ++
  (if hasSub diff ['+'] ∧ (hasSub diff (strL "log.") ∨ hasSub diff (strL "logger.") ∨
      hasSub diff (strL "Logger")) then
    [strL "logging"] else []) ++
  (if hasSub c.File (strL "middleware") ∨ (hasSub diff (strL "func ") ∧ hasSub diff (strL "next")) then
    [strL "middleware"] else []) ++
  (if hasSub diff (strL "New") ∧ hasSub diff (strL "return &") then
    [strL "dependency-injection"] else []) ++
  (if hasSub diff (strL "cobra.Command") ∨ hasSub diff (strL "flag.") then
    [strL "cli"] else []) ++
  (if hasSub diff (strL "+type ") then [strL "type-definition"] else []) ++
  (if hasSub diff (strL "+const ") ∨ hasSub diff (strL "+var ") then
    [strL "constant-definition"] else [])

end Gitmit

namespace Gitmit

/-- isDocsOnly models Analyzer.isDocsOnly: non-empty and every change is
under docs/ or wiki/ or has extension md or txt. -/
def isDocsOnly (changes : List Change) : Bool :=
  if changes = [] then false
  else changes.all (fun c =>
    ((strL "docs/").isPrefixOf c.File) || ((strL "wiki/").isPrefixOf c.File) ||
    c.FileExtension = strL "md" || c.FileExtension = strL "txt")

/-- isConfigOnly models Analyzer.isConfigOnly. -/
def isConfigOnly (changes : List Change) : Bool :=
  if changes = [] then false
  else changes.all (fun c =>
    hasSub c.File (strL "config") || c.FileExtension = strL "json" ||
    c.FileExtension = strL "yaml" || c.FileExtension = strL "yml" ||
    c.FileExtension = strL "env" || c.File = strL "Dockerfile")

/-- isDepsOnly models Analyzer.isDepsOnly. -/
def isDepsOnly (changes : List Change) : Bool :=
  if changes = [] then false
  else changes.all (fun c =>
    c.File = strL "go.mod" || c.File = strL "go.sum" ||
    c.FileExtension = strL "mod" || c.FileExtension = strL "sum")

/-- determineAction models Analyzer.determineAction (current variant), the
legacy per-file action rule on the first change. -/
def determineAction (c : Change) : Str :=
  if c.FileExtension = strL "md" then strL "docs"
  else if c.Action = strL "A" then
    (if (strL "_test.go").isSuffixOf c.File then strL "test"
     -- the new-API-endpoint branch of the source returns "feat" in both arms
     else if hasSub c.Diff (strL "func ") ∧ (hasSub c.File (strL "handler") ∨
         hasSub c.File (strL "api") ∨ hasSub c.File (strL "route")) then strL "feat"
     else strL "feat")
  else if c.Action = strL "M" then
    (if hasSub c.Diff (strL "security") ∨ hasSub c.Diff (strL "vulnerability") then strL "security"
     else if hasSub c.Diff (strL "optimize") ∨ hasSub c.Diff (strL "performance") ∨
         hasSub c.Diff (strL "cache") ∨ hasSub c.Diff (strL "goroutine") then strL "perf"
     else if detectIncreasedLogging c.Diff then strL "feat"
     else if hasSub c.Diff (strL "fix") ∨ hasSub c.Diff (strL "bug") ∨
         hasSub c.Diff (strL "issue") ∨ hasSub c.Diff (strL "resolve") then strL "fix"
     else if isStyleChange c.Diff then strL "style"
     else if (strL "_test.go").isSuffixOf c.File then strL "test"
     else strL "refactor")
  else if c.Action = strL "D" then
    (if detectRemovedFunctions c.Diff then strL "refactor" else strL "chore")
  else if c.Action = strL "R" then strL "refactor"
  else if c.Action = strL "C" then strL "feat"
  else strL "chore"

/-- applySharedFallback models the part of Analyzer.applySmartFallback that
is independent of the single-change fast paths: mass restructure, build
configuration files, docs-only, go.mod. -/
def applySharedFallback (changes : List Change) (pre : CommitMessage) : Option CommitMessage :=
  -- the source compares float64(totalAdded+totalRemoved)/float64(len) > 10;
  -- with the positive length and totals of this branch that is exactly
  -- 10 * len < totalAdded + totalRemoved
  if 5 < changes.length ∧ 0 < pre.TotalAdded ∧ 0 < pre.TotalRemoved ∧
      10 * (changes.length : Int) < pre.TotalAdded + pre.TotalRemoved then
    some { Action := strL "refactor", Topic := strL "core", Purpose := strL "restructure project" }
  else if pre.FileExtensions.any (fun ext =>
      ext = strL "env" || ext = strL "yml" || ext = strL "yaml" || ext = strL "Dockerfile") then
    some { Action := strL "ci", Topic := strL "config", Purpose := strL "update build configuration" }
  else if pre.IsDocsOnly then
    some { Action := strL "docs", Topic := [], Purpose := strL "update documentation" }
  else if changes.any (fun c => c.File = strL "go.mod") then
    some { Action := strL "chore", Topic := strL "deps", Purpose := strL "update dependencies" }
  else none

/-- applySmartFallback models Analyzer.applySmartFallback: the
single-change fast paths followed by the shared fallbacks; a returned
record is a fresh composite literal, zero everywhere but the set fields. -/
def applySmartFallback (changes : List Change) (cfg : Config) (pre : CommitMessage) :
    Option CommitMessage :=
  match changes with
  | [c] =>
    if c.Action = strL "A" then
      some { Action := strL "feat", Topic := determineTopic cfg c.File,
             Item := determineItem c.File, Purpose := strL "initial implementation" }
    else if c.Action = strL "D" then
      some { Action := strL "chore", Topic := determineTopic cfg c.File,
             Item := determineItem c.File, Purpose := strL "remove unused file" }
    else if (strL "_test.go").isSuffixOf c.File then
      some { Action := strL "test", Topic := determineTopic cfg c.File,
             Item := determineItem c.File, Purpose := strL "update tests" }
    else applySharedFallback changes pre
  | _ => applySharedFallback changes pre

/-- ratioGtThPlusFifth states threshold + 0.2 < part/total, written
without rational division: with threshold = num/den (den positive) and a
positive total of nonnegative counts it is exactly
(5 * num + den) * total < 5 * den * part, the form compared here (float64
is exact on these counts and its correctly rounded operations cannot
cross a threshold met by no representable ratio of such counts). -/
abbrev ratioGtThPlusFifth (th : ℚ) (part total : Int) : Prop :=
  (5 * th.num + (th.den : Int)) * total < 5 * (th.den : Int) * part

/-- diffStatThresholdOf is the threshold default of analyzeDiffStat: the
configured value, or one half when the config value is zero. -/
def diffStatThresholdOf (cfg : Config) : ℚ :=
  if cfg.DiffStatThreshold = 0 then mkRat 1 2 else cfg.DiffStatThreshold

/-- analyzeDiffStat models Analyzer.analyzeDiffStat: ratio-based action
inference from the aggregate added/removed line totals (the source binds
the sum and the two ratios to locals; they are inlined here). The
float64 ratio comparisons are written in cross-multiplied integer form
(exact for the nonnegative line counts and positive totals reaching this
code; ratioGtThPlusFifth documents the correspondence, and
0.3 < part/total becomes 3 * total < 10 * part). -/
def analyzeDiffStat (changes : List Change) (cfg : Config) (totalAdded totalRemoved : Int) : Str :=
  if totalAdded = 0 ∧ totalRemoved = 0 then []
  else if totalAdded + totalRemoved = 0 then []
  else if ratioGtThPlusFifth (diffStatThresholdOf cfg) totalRemoved
      (totalAdded + totalRemoved) then strL "refactor"
  else if ratioGtThPlusFifth (diffStatThresholdOf cfg) totalAdded
        (totalAdded + totalRemoved) ∧ 50 < totalAdded ∧
      changes.any (fun c => c.Action = strL "A" && 30 < c.Added) then strL "feat"
  else if 3 * (totalAdded + totalRemoved) < 10 * totalRemoved ∧
      3 * (totalAdded + totalRemoved) < 10 * totalAdded then strL "refactor"
  else []

/-- concatDiffs models the strings.Builder loop of
determineActionByKeywordScoring: every diff followed by a newline. -/
def concatDiffs (changes : List Change) : Str :=
  changes.foldl (fun acc c => acc ++ c.Diff ++ ['\n']) []

/-- keywordScore is the per-action score of the keyword-scoring fallback:
the sum over configured keywords of occurrence count times weight. -/
def keywordScore (content : Str) (kws : List (Str × Int)) : Int :=
  kws.foldl (fun s kv => s + (countSub content (toLowerS kv.1) : Int) * kv.2) 0

/-- determineActionByKeywordScoring models the keyword-scoring fallback:
concatenate and lowercase all diffs, score each configured action, return
the running maximum when positive (first entry on ties, in iteration
order) and the empty string otherwise. -/
def determineActionByKeywordScoring (changes : List Change) (cfg : Config) : Str :=
  if cfg.Keywords = [] then []
  else
    let content := toLowerS (concatDiffs changes)
    let scores := cfg.Keywords.map (fun av => (av.1, keywordScore content av.2))
    let best := scores.foldl (fun acc p => if acc.2 < p.2 then p else acc) (([] : Str), (0 : Int))
    if 0 < best.2 then best.1 else []

/-- bumpCount increments an association-list counter, preserving first
insertion order (the model of the Go count maps). -/
def bumpCount : List (Str × Nat) → Str → List (Str × Nat)
  | [], k => [(k, 1)]
  | kv :: rest, k => if kv.1 = k then (kv.1, kv.2 + 1) :: rest else kv :: bumpCount rest k

/-- detectIntelligentScope models Analyzer.detectIntelligentScope: single
shared topic, else single shared top-level directory, else at most three
topics joined ascending with commas, else the most frequent topic. -/
def detectIntelligentScope (changes : List Change) (cfg : Config) : Str :=
  if changes = [] then []
  else
    let topics := changes.foldl (fun m c => bumpCount m (determineTopic cfg c.File)) []
    let dirs := changes.foldl (fun m c =>
      let d := dirOf c.File
      if d ≠ ['.'] then
        match splitAll ['/'] d with
        | p0 :: _ => bumpCount m p0
        | [] => m
      else m) []
    if topics.length = 1 then (topics.headD ([], 0)).1
    else if dirs.length = 1 then (dirs.headD ([], 0)).1
    else if topics.length ≤ 3 then joinSep [','] (sortStrs (topics.map Prod.fst))
    else (topics.foldl (fun acc p => if acc.2 < p.2 then p else acc) (strL "core", 0)).1

/-- detectMultiFilePatterns models Analyzer.detectMultiFilePatterns: the
cross-file signatures, in source order. -/
def detectMultiFilePatterns (changes : List Change) : List Str :=
  if changes.length ≤ 1 then []
  else
    let n := changes.length
    let added := (changes.filter (fun c => c.Action = strL "A")).length
    let modified := (changes.filter (fun c => c.Action = strL "M")).length
    let deleted := (changes.filter (fun c => c.Action = strL "D")).length
    let testFiles := (changes.filter (fun c => (strL "_test.go").isSuffixOf c.File)).length
    let configFiles := (changes.filter (fun c =>
      hasSub c.File (strL "config") || c.FileExtension = strL "json" ||
      c.FileExtension = strL "yaml" || c.FileExtension = strL "yml")).length
    let apiFiles := (changes.filter (fun c =>
      hasSub c.File (strL "handler") || hasSub c.File (strL "api") ||
      hasSub c.File (strL "route"))).length
    let dbFiles := (changes.filter (fun c =>
      hasSub c.File (strL "migration") || hasSub c.File (strL "database") ||
      hasSub c.File (strL "schema"))).length
    -- the source compares float64(count)/float64(n) against 0.6 and 0.7;
    -- for these nonnegative counts that is exactly 3*n < 5*count and
    -- 7*n < 10*count, the forms used here
    (if 3 ≤ added ∧ 3 * n < 5 * added then [strL "feature-addition"] else []) ++
    (if 3 ≤ modified ∧ 3 * n < 5 * modified ∧
        changes.any (fun c => hasSub c.Diff (strL "fix") || hasSub c.Diff (strL "bug")) then
      [strL "bug-fix-cascade"] else []) ++
    (if 0 < added ∧ 0 < modified ∧ 0 < deleted ∧ 4 ≤ changes.length then
      [strL "refactor-sweep"] else []) ++
    (if 0 < testFiles ∧ 7 * n < 10 * testFiles then [strL "test-suite-update"] else []) ++
    (if 0 < configFiles ∧ 7 * n < 10 * configFiles then [strL "config-update"] else []) ++
    (if 3 ≤ apiFiles then [strL "api-redesign"] else []) ++
    (if 2 ≤ dbFiles then [strL "database-migration"] else [])

/-- applyMultiPatternOverride models the multi-file-pattern adjustment
block at the end of AnalyzeChanges: only feature-addition,
bug-fix-cascade, refactor-sweep and test-suite-update override the action
and purpose, in that priority order. -/
def applyMultiPatternOverride (pats : List Str) (m : CommitMessage) : CommitMessage :=
  if pats.length ≠ 0 then
    if containsStr pats (strL "feature-addition") then
      { m with Action := strL "feat", Purpose := strL "add new feature across multiple modules" }
    else if containsStr pats (strL "bug-fix-cascade") then
      { m with Action := strL "fix", Purpose := strL "resolve issue across multiple components" }
    else if containsStr pats (strL "refactor-sweep") then
      { m with Action := strL "refactor", Purpose := strL "restructure and improve code organization" }
    else if containsStr pats (strL "test-suite-update") then
      { m with Action := strL "test", Purpose := strL "update test suite" }
    else m
  else m

/-- aggregateMsg is the record built by the aggregation loop at the top of
AnalyzeChanges, before the smart fallback runs (the source also
accumulates per-change topics, purposes and items into local slices that
are never read afterwards; those dead accumulations are omitted). -/
def aggregateMsg (changes : List Change) (totalAdded totalRemoved : Int) : CommitMessage :=
  { TotalAdded := totalAdded,
    TotalRemoved := totalRemoved,
    RenamedFiles := changes.filter (fun c => c.IsRename),
    CopiedFiles := changes.filter (fun c => c.IsCopy),
    IsMajor := changes.any (fun c => c.IsMajor),
    FileExtensions := uniqueStrings (changes.map (fun c => c.FileExtension)),
    DetectedFunctions := uniqueStrings ((changes.map (fun c => detectFunctions c.Diff)).flatten),
    DetectedStructs := uniqueStrings ((changes.map (fun c => detectStructs c.Diff)).flatten),
    DetectedMethods := uniqueStrings ((changes.map (fun c => detectMethods c.Diff)).flatten),
    ChangePatterns := uniqueStrings ((changes.map detectChangePatterns).flatten),
    IsDocsOnly := isDocsOnly changes,
    IsConfigOnly := isConfigOnly changes,
    IsDepsOnly := isDepsOnly changes }

/-- stepTwoAction is the action chain of AnalyzeChanges after the smart
fallback declined: diff-stat analysis, then keyword scoring, then the
legacy per-file rule on the first change. -/
def stepTwoAction (changes : List Change) (cfg : Config) (first : Change)
    (totalAdded totalRemoved : Int) : Str :=
  if analyzeDiffStat changes cfg totalAdded totalRemoved ≠ ([] : Str) then
    analyzeDiffStat changes cfg totalAdded totalRemoved
  else if determineActionByKeywordScoring changes cfg ≠ ([] : Str) then
    determineActionByKeywordScoring changes cfg
  else determineAction first

/-- analyzeChanges models Analyzer.AnalyzeChanges (current variant). The
recentTopic parameter is the oracle for the external
history.GetRecentCommitContext collaborator: the scope of the most recent
commit, empty on error or absence. -/
def analyzeChanges (changes : List Change) (cfg : Config) (recentTopic : Str)
    (totalAdded totalRemoved : Int) : Option CommitMessage :=
  match changes with
  | [] => none
  | first :: _ =>
    let pre := aggregateMsg changes totalAdded totalRemoved
    match applySmartFallback changes cfg pre with
    | some m => some m
    | none =>
      let msg1 := { pre with
        Action := stepTwoAction changes cfg first totalAdded totalRemoved,
        Topic := determineTopic cfg first.File,
        Item := determineItem first.File,
        Purpose := determinePurpose cfg first.Diff }
      let msg2 :=
        if 1 < changes.length then
          let s := detectIntelligentScope changes cfg
          if s ≠ [] then { msg1 with Scope := s } else msg1
        else msg1
      let msg3 :=
        if msg2.Topic = ([] : Str) ∨ msg2.Topic = strL "core" then
          if recentTopic ≠ [] then { msg2 with Topic := recentTopic } else msg2
        else msg2
      some (applyMultiPatternOverride (detectMultiFilePatterns changes) msg3)

end Gitmit

namespace Gitmit

/-- inferProjectScope models templater.inferProjectScope: the analyzer
scope when set, else a meaningful topic, else empty. -/
def inferProjectScope (m : CommitMessage) : Str :=
  if m.Scope ≠ [] then m.Scope
  else if m.Topic ≠ [] ∧ m.Topic ≠ strL "core" ∧ m.Topic ≠ ['.'] then m.Topic
  else []

/-!
Templater.scoreTemplate adds float64 weights that are all integer
multiples of one half (1.0, -50.0, 2.0, 1.5, 1.0, 0.5, -0.5); on such
values float64 arithmetic is exact, so each block is modelled as an
integer count of half points and the total is divided by two into `ℚ` at
the end: 1.5 points is the half-unit 3, fifty points the half-unit 100.
-/

/-- itemPenaltyH is the penalty block of Templater.scoreTemplate in half
points: minus 50 points when the template requires the item placeholder
but the context has neither an item nor any detected structure. -/
def itemPenaltyH (tmpl : Str) (item : Str) (funcs structs methods : List Str) : Int :=
  if hasSub tmpl (strL "{item}") then
    let hasItem := item ≠ []
    let hasDetectedStructures := funcs ≠ [] ∨ structs ≠ [] ∨ methods ≠ []
    if ¬ hasItem ∧ ¬ hasDetectedStructures then -100 else 0
  else 0

/-- patternBonusH is the detected-pattern block of Templater.scoreTemplate
in half points: plus 2 points per matching change pattern. -/
def patternBonusH (tmpl : Str) (pats : List Str) : Int :=
  pats.foldl (fun s p =>
    if hasSub tmpl p ∨
        (p = strL "error-handling" ∧ hasSub tmpl (strL "fix")) ∨
        (p = strL "test-addition" ∧ hasSub tmpl (strL "test")) ∨
        (p = strL "documentation" ∧ hasSub tmpl (strL "docs")) ∨
        (p = strL "api-changes" ∧ hasSub tmpl (strL "api")) ∨
        (p = strL "database" ∧ hasSub tmpl (strL "db")) ∨
        (p = strL "security" ∧ hasSub tmpl (strL "security")) ∨
        (p = strL "performance" ∧ hasSub tmpl (strL "perf")) then s + 4 else s) 0

/-- structureBonusH is the detected-structure block of
Templater.scoreTemplate in half points: plus 1.5 points for functions and
for structs when the template carries the item placeholder. -/
def structureBonusH (tmpl : Str) (funcs structs : List Str) : Int :=
  (if funcs ≠ [] ∧ hasSub tmpl (strL "{item}") then 3 else 0) +
  (if structs ≠ [] ∧ hasSub tmpl (strL "{item}") then 3 else 0)

/-- purposeBonusH is the purpose block of Templater.scoreTemplate in half
points. -/
def purposeBonusH (tmpl : Str) (purpose : Str) : Int :=
  if purpose ≠ strL "general update" ∧ hasSub tmpl (strL "{purpose}") then 2 else 0

/-- extBonusH is the file-type block of Templater.scoreTemplate in half
points. -/
def extBonusH (tmpl : Str) (exts : List Str) : Int :=
  exts.foldl (fun s ext =>
    s + (if ext = strL "go" ∧ hasSub tmpl (strL "func") then 1 else 0)
      + (if (ext = strL "json" ∨ ext = strL "yaml" ∨ ext = strL "yml") ∧
            (hasSub tmpl (strL "config") ∨ hasSub tmpl (strL "settings")) then 2 else 0)
      + (if ext = strL "md" ∧ hasSub tmpl (strL "docs") then 3 else 0)) 0

/-- genericPenaltyH is the generic-template block of
Templater.scoreTemplate in half points. -/
def genericPenaltyH (tmpl : Str) (pats : List Str) : Int :=
  if hasSub tmpl (strL "general") ∧ pats ≠ [] then -1 else 0

/-- majorBonusH is the major-change block of Templater.scoreTemplate in
half points. -/
def majorBonusH (tmpl : Str) (isMajor : Bool) : Int :=
  if isMajor ∧ (hasSub tmpl (strL "restructure") ∨ hasSub tmpl (strL "refactor") ∨
      hasSub tmpl (strL "major")) then 2 else 0

/-- scopeBonusH is the project-scope block of Templater.scoreTemplate in
half points, taking the already inferred scope. -/
def scopeBonusH (tmpl : Str) (projectScope : Str) (topic : Str) : Int :=
  if projectScope ≠ [] then
    (if hasSub (toLowerS tmpl) (toLowerS projectScope) then 4 else 0) +
    (if hasSub tmpl (strL "{topic}") ∧ topic ≠ [] then 2 else 0)
  else 0

/-- scoreTemplateH is Templater.scoreTemplate in half points: base 1 point
plus all the additive blocks. -/
def scoreTemplateH (tmpl : Str) (m : CommitMessage) : Int :=
  2 + itemPenaltyH tmpl m.Item m.DetectedFunctions m.DetectedStructs m.DetectedMethods
    + patternBonusH tmpl m.ChangePatterns
    + structureBonusH tmpl m.DetectedFunctions m.DetectedStructs
    + purposeBonusH tmpl m.Purpose
    + extBonusH tmpl m.FileExtensions
    + genericPenaltyH tmpl m.ChangePatterns
    + majorBonusH tmpl m.IsMajor
    + scopeBonusH tmpl (inferProjectScope m) m.Topic

/-- scoreTemplate models Templater.scoreTemplate, in points (the function
itself contains no random jitter; callers add jitter separately). -/
def scoreTemplate (tmpl : Str) (m : CommitMessage) : ℚ :=
  mkRat (scoreTemplateH tmpl m) 2

/-- renderTemplateAux is the scanning loop of renderTemplate, structural
in a fuel argument for kernel reducibility (fuel equal to the template
length suffices, as in countSubAux). -/
def renderTemplateAux (topic item purpose source target : Str) : Nat → Str → Str
  | _, [] => []
  | 0, s => s
  | n + 1, c :: rest =>
    if (strL "{topic}").isPrefixOf (c :: rest) then
      topic ++ renderTemplateAux topic item purpose source target n ((c :: rest).drop 7)
    else if (strL "{item}").isPrefixOf (c :: rest) then
      item ++ renderTemplateAux topic item purpose source target n ((c :: rest).drop 6)
    else if (strL "{purpose}").isPrefixOf (c :: rest) then
      purpose ++ renderTemplateAux topic item purpose source target n ((c :: rest).drop 9)
    else if (strL "{source}").isPrefixOf (c :: rest) then
      source ++ renderTemplateAux topic item purpose source target n ((c :: rest).drop 8)
    else if (strL "{target}").isPrefixOf (c :: rest) then
      target ++ renderTemplateAux topic item purpose source target n ((c :: rest).drop 8)
    else c :: renderTemplateAux topic item purpose source target n rest

/-- renderTemplate models the strings.Replacer over the five placeholders:
single left-to-right pass, first matching placeholder consumed. -/
def renderTemplate (topic item purpose source target : Str) (s : Str) : Str :=
  renderTemplateAux topic item purpose source target s.length s

/-- collapseFuel is the space-collapsing loop of cleanFinalMessage with an
explicit iteration bound; each pass of the source loop strictly shortens
the string, so a fuel equal to the initial length is never exhausted. -/
def collapseFuel : Nat → Str → Str
  | 0, s => s
  | n + 1, s =>
    if hasSub s (strL "  ") then collapseFuel n (replaceAll (strL "  ") (strL " ") s) else s

/-- collapseSpaces models the loop "while the message contains a double
space, replace double spaces by single spaces". -/
def collapseSpaces (s : Str) : Str := collapseFuel s.length s

/-- cleanFinalMessage models templater.cleanFinalMessage: normalize
empty-scope artifacts, trim, collapse repeated spaces. -/
def cleanFinalMessage (message : Str) : Str :=
  let m1 := replaceAll (strL "():") (strL ":") message
  let m2 := replaceAll (strL "( ):") (strL ":") m1
  let m3 := replaceAll (strL "(  ):") (strL ":") m2
  collapseSpaces (trimSpace m3)

/-- enhancedItem models the item-selection logic of the templater entry
points: first detected function, else struct, else method, else the
analyzer item. -/
def enhancedItem (m : CommitMessage) : Str :=
  match m.DetectedFunctions with
  | f :: _ => f
  | [] =>
    match m.DetectedStructs with
    | st :: _ => st
    | [] =>
      match m.DetectedMethods with
      | mth :: _ => mth
      | [] => m.Item

/-- suggestionLoopA is the first selection loop of
Templater.GetSuggestions: take rendered messages in score order, skipping
those already taken in this call or present in history, until maxN. -/
def suggestionLoopA (render : Str → Str) (histC : Str → Bool) (maxN : Nat) :
    List Str → List Str → List Str → List Str × List Str
  | [], sugg, used => (sugg, used)
  | t :: rest, sugg, used =>
    if maxN ≤ sugg.length then (sugg, used)
    else
      let message := render t
      if containsStr used message || histC message then
        suggestionLoopA render histC maxN rest sugg used
      else
        suggestionLoopA render histC maxN rest (sugg ++ [message]) (message :: used)

/-- suggestionLoopB is the backfill loop of Templater.GetSuggestions: the
same scan, this time admitting history collisions but still no message
taken twice. -/
def suggestionLoopB (render : Str → Str) (maxN : Nat) :
    List Str → List Str → List Str → List Str × List Str
  | [], sugg, used => (sugg, used)
  | t :: rest, sugg, used =>
    if maxN ≤ sugg.length then (sugg, used)
    else
      let message := render t
      if containsStr used message then suggestionLoopB render maxN rest sugg used
      else suggestionLoopB render maxN rest (sugg ++ [message]) (message :: used)

/-- getSuggestionsFrom is the selection core of Templater.GetSuggestions,
given the scored candidate templates in their sorted order. -/
def getSuggestionsFrom (render : Str → Str) (histC : Str → Bool) (maxN : Nat)
    (scored : List Str) : List Str :=
  let r1 := suggestionLoopA render histC maxN scored [] []
  if r1.1.length < maxN then (suggestionLoopB render maxN scored r1.1 r1.2).1 else r1.1

/-- suggestSource is the source half of the first-rename extraction done
by the templater entry points. -/
def suggestSource (m : CommitMessage) : Str :=
  match m.RenamedFiles with
  | [] => []
  | c :: _ => c.Source

/-- suggestTarget is the target half of that extraction. -/
def suggestTarget (m : CommitMessage) : Str :=
  match m.RenamedFiles with
  | [] => []
  | c :: _ => c.Target

/-- getSuggestions models Templater.GetSuggestions. The scored parameter
stands for the candidate templates after scoring and sorting; the sort
order depends on an injected random jitter, so the theorems quantify over
every order. Rendering substitutes the five placeholders with the
enhanced item and the first rename's source and target, then cleans the
message; failure occurs exactly when no candidate templates resolve. -/
def getSuggestions (m : CommitMessage) (scored : List Str) (histC : Str → Bool)
    (maxN : Nat) : Option (List Str) :=
  if scored = [] then none
  else
    some (getSuggestionsFrom
      (fun t => cleanFinalMessage
        (renderTemplate m.Topic (enhancedItem m) m.Purpose (suggestSource m) (suggestTarget m) t))
      histC maxN scored)

/-- formatMessage models formatter.FormatMessage (current variant):
redundant-phrase removal, word-boundary truncation past 72 characters
with a trailing ellipsis, and the optional major-change suffix. -/
def formatMessage (msg : Str) (isMajor : Bool) : Str :=
  let m1 := replaceAll (strL "add add new") (strL "add new") msg
  let m2 := replaceAll (strL "feat feat") (strL "feat") m1
  let m3 := replaceAll (strL "fix fix") (strL "fix") m2
  let m4 :=
    if 72 < m3.length then
      let t := m3.take 72
      let ls := lastIdxSub t [' ']
      (if ls ≠ -1 then t.take ls.toNat else t) ++ strL "..."
    else m3
  if isMajor then m4 ++ strL " (massive refactor)" else m4

/-- formatNormalize is the normalization step named by the specification:
the templater's final cleaning followed by the formatter (without the
major-change suffix). -/
def formatNormalize (msg : Str) : Str :=
  formatMessage (cleanFinalMessage msg) false

end Gitmit

namespace Gitmit

/-- commitTypeActions is the closed commit-type set: every action literal
the analyzer can produce (diff-stat, keyword-free scoring fallback, legacy
rule, smart fallbacks and multi-file overrides). -/
def commitTypeActions : List Str :=
  [strL "feat", strL "fix", strL "refactor", strL "chore", strL "test",
   strL "docs", strL "style", strL "perf", strL "ci", strL "security"]

/-- cfgDefault is the hardcoded default configuration LoadConfig starts
from: empty mappings and a diff-stat threshold of one half. -/
def cfgDefault : Config := {}

/-- chgC9 is the single staged change of scenario A: one added file
internal/parser/git.go whose diff introduces ParseCommitHistory. -/
def chgC9 : Change :=
  { File := strL "internal/parser/git.go", Action := strL "A",
    Added := 1, Removed := 0,
    Diff := strL "+func ParseCommitHistory() error \x7b\x7d",
    FileExtension := strL "go" }

/-- chgB1, chgB2, chgB3 are the three modified files of scenario B, each
diff containing the word fix. -/
def chgB1 : Change :=
  { File := strL "internal/handler/handler.go", Action := strL "M",
    Added := 1, Removed := 1, Diff := strL "+fix", FileExtension := strL "go" }

/-- chgB2 is the service-layer change of scenario B. -/
def chgB2 : Change :=
  { File := strL "internal/service/service.go", Action := strL "M",
    Added := 1, Removed := 1, Diff := strL "+fix", FileExtension := strL "go" }

/-- chgB3 is the validator-layer change of scenario B. -/
def chgB3 : Change :=
  { File := strL "internal/validator/validator.go", Action := strL "M",
    Added := 1, Removed := 1, Diff := strL "+fix", FileExtension := strL "go" }

/-- chgM1 and chgM2 are two modified migration files: enough to trigger
the database-migration pattern and nothing else. -/
def chgM1 : Change :=
  { File := strL "migrations/001.sql", Action := strL "M",
    FileExtension := strL "sql" }

/-- chgM2 is the second migration file. -/
def chgM2 : Change :=
  { File := strL "migrations/002.sql", Action := strL "M",
    FileExtension := strL "sql" }

/-- chgDocs is a single modified markdown file, driving the docs-only
smart fallback. -/
def chgDocs : Change :=
  { File := strL "README.md", Action := strL "M", FileExtension := strL "md" }

/-- cfgTie is a configuration whose keyword table gives two actions the
same positive score on a diff containing the letter x. -/
def cfgTie : Config :=
  { Keywords := [(strL "feat", [(strL "x", 1)]), (strL "fix", [(strL "x", 1)])] }

/-- chgTie is a modified file whose diff is the single letter x. -/
def chgTie : Change :=
  { File := strL "a.go", Action := strL "M", Diff := strL "x",
    FileExtension := strL "go" }

/-- chgY is a modified file whose diff contains no configured keyword. -/
def chgY : Change :=
  { File := strL "a.go", Action := strL "M", Diff := strL "y",
    FileExtension := strL "go" }

/-- ctxC6 is a commit context with empty item and no detected structures
whose scope is the word item, which also occurs inside the item
placeholder text itself. -/
def ctxC6 : CommitMessage :=
  { Scope := strL "item", Purpose := strL "general update" }

end Gitmit


namespace Gitmit

theorem containsStr_iff (l : List Str) (x : Str) : containsStr l x = true ↔ x ∈ l := by
  induction l with
  | nil => simp [containsStr]
  | cons s rest ih =>
    simp only [containsStr]
    by_cases h : s = x
    · subst h; simp
    · simp only [h, if_false, ih, List.mem_cons]
      constructor
      · exact Or.inr
      · rintro (hx | hx)
        · exact absurd hx.symm h
        · exact hx

theorem sharedFallback_minimal {changes : List Change} {pre m : CommitMessage}
    (h : applySharedFallback changes pre = some m) :
    m.TotalAdded = 0 ∧ m.TotalRemoved = 0 ∧ m.IsMajor = false ∧
    m.FileExtensions = [] ∧ m.DetectedFunctions = [] ∧ m.DetectedStructs = [] ∧
    m.DetectedMethods = [] ∧ m.ChangePatterns = [] ∧ m.RenamedFiles = [] ∧
    m.CopiedFiles = [] := by
  unfold applySharedFallback at h
  split_ifs at h <;>
    first
    | exact Option.noConfusion h
    | (cases h; exact ⟨rfl, rfl, rfl, rfl, rfl, rfl, rfl, rfl, rfl, rfl⟩)

theorem smartFallback_minimal {changes : List Change} {cfg : Config} {pre m : CommitMessage}
    (h : applySmartFallback changes cfg pre = some m) :
    m.TotalAdded = 0 ∧ m.TotalRemoved = 0 ∧ m.IsMajor = false ∧
    m.FileExtensions = [] ∧ m.DetectedFunctions = [] ∧ m.DetectedStructs = [] ∧
    m.DetectedMethods = [] ∧ m.ChangePatterns = [] ∧ m.RenamedFiles = [] ∧
    m.CopiedFiles = [] := by
  rcases changes with _ | ⟨c, rest⟩
  · exact sharedFallback_minimal h
  · rcases rest with _ | ⟨c2, rest2⟩
    · simp only [applySmartFallback] at h
      split_ifs at h <;>
        first
        | exact sharedFallback_minimal h
        | (cases h; exact ⟨rfl, rfl, rfl, rfl, rfl, rfl, rfl, rfl, rfl, rfl⟩)
    · exact sharedFallback_minimal h

end Gitmit

namespace Gitmit

/-- C1: AnalyzeChanges returns nil (modelled none) exactly when the change
list is empty; for every non-empty change list, whatever the diff texts,
it returns a commit context (the heuristics only pick defaults, they never
fail). -/
theorem C1_analyze_fails_iff_empty (changes : List Change) (cfg : Config)
    (recentTopic : Str) (totalAdded totalRemoved : Int) :
    analyzeChanges changes cfg recentTopic totalAdded totalRemoved = none ↔ changes = [] := by
  constructor
  · intro h
    cases changes with
    | nil => rfl
    | cons first rest =>
      exfalso
      simp only [analyzeChanges] at h
      split at h
      · exact Option.noConfusion h
      · exact Option.noConfusion h
  · rintro rfl
    rfl

/-- C10: whenever any smart-fallback fast path fires, the returned commit
context is a fresh minimal record (zero totals, not major, every aggregate
list empty), and AnalyzeChanges returns exactly that record, discarding
every aggregate computed before the fallback. -/
theorem C10_fallback_returns_minimal_record (changes : List Change) (cfg : Config)
    (pre m : CommitMessage) (recentTopic : Str) (totalAdded totalRemoved : Int) :
    (applySmartFallback changes cfg pre = some m →
      m.TotalAdded = 0 ∧ m.TotalRemoved = 0 ∧ m.IsMajor = false ∧
      m.FileExtensions = [] ∧ m.DetectedFunctions = [] ∧ m.DetectedStructs = [] ∧
      m.DetectedMethods = [] ∧ m.ChangePatterns = [] ∧ m.RenamedFiles = [] ∧
      m.CopiedFiles = []) ∧
    (applySmartFallback changes cfg (aggregateMsg changes totalAdded totalRemoved) = some m →
      changes ≠ [] →
      analyzeChanges changes cfg recentTopic totalAdded totalRemoved = some m) := by
  constructor
  · exact fun h => smartFallback_minimal h
  · intro h hne
    cases changes with
    | nil => exact absurd rfl hne
    | cons first rest =>
      rcases hf : applySmartFallback (first :: rest) cfg
          (aggregateMsg (first :: rest) totalAdded totalRemoved) with _ | m2
      · rw [hf] at h
        exact Option.noConfusion h
      · rw [hf] at h
        injection h with h2
        subst h2
        unfold analyzeChanges
        simp only [hf]

/-- C10 witness: on a concrete single-file addition the fast path fires,
the returned record has zero aggregates, and AnalyzeChanges returns it. -/
theorem C10_witness :
    ((applySmartFallback [chgC9] cfgDefault (aggregateMsg [chgC9] 5 7)).getD {}).TotalAdded = 0 ∧
    analyzeChanges [chgC9] cfgDefault [] 5 7 =
      some ((applySmartFallback [chgC9] cfgDefault (aggregateMsg [chgC9] 5 7)).getD {}) := by
  have h : applySmartFallback [chgC9] cfgDefault (aggregateMsg [chgC9] 5 7) =
      some ((applySmartFallback [chgC9] cfgDefault (aggregateMsg [chgC9] 5 7)).getD {}) := by
    decide
  have h2 := C10_fallback_returns_minimal_record [chgC9] cfgDefault
    (aggregateMsg [chgC9] 5 7)
    ((applySmartFallback [chgC9] cfgDefault (aggregateMsg [chgC9] 5 7)).getD {}) [] 5 7
  exact ⟨(h2.1 h).1, h2.2 h (by decide)⟩

/-- C9 counterexample: on scenario A (one added file internal/parser/git.go
whose diff introduces ParseCommitHistory, default configuration) the
analysis result has an empty DetectedFunctions list, not
["ParseCommitHistory"]: the single-Add fast path returns a fresh minimal
record that discards the detected functions. -/
theorem C9_counterexample_functions_dropped :
    (analyzeChanges [chgC9] cfgDefault [] 1 0).map (fun m => m.DetectedFunctions) =
      some [] ∧ ([] : List Str) ≠ [strL "ParseCommitHistory"] := by
  decide

/-- C9 amended: on scenario A the result has Topic "parser" and Action
"feat" as claimed, while DetectedFunctions is empty in the returned record
even though the extractor does find ParseCommitHistory in the diff (the
single-Add fast path drops it). -/
theorem C9_amended_scenario_a :
    (analyzeChanges [chgC9] cfgDefault [] 1 0).map
        (fun m => (m.Topic, m.Action, m.DetectedFunctions)) =
      some (strL "parser", strL "feat", []) ∧
    detectFunctions chgC9.Diff = [strL "ParseCommitHistory"] := by
  decide

/-- C4 counterexample: on scenario B (three modified go files under
internal/handler, internal/service and internal/validator, each diff
containing "fix", default configuration) the resulting Scope is
"internal", not "handler,service,validator": all three changes share the
top-level directory internal, and the shared-directory rule of
detectIntelligentScope fires before the join-topics rule. -/
theorem C4_counterexample_scope_internal :
    (analyzeChanges [chgB1, chgB2, chgB3] cfgDefault [] 3 3).map (fun m => m.Scope) =
      some (strL "internal") ∧ strL "internal" ≠ strL "handler,service,validator" := by
  decide

/-- C4 amended: scenario B yields Action "fix" through the bug-fix-cascade
multi-file pattern as claimed, but Scope "internal" (single shared
top-level directory), the shared-directory rule preceding the
join-topics-alphabetically rule. -/
theorem C4_amended_scenario_b :
    detectMultiFilePatterns [chgB1, chgB2, chgB3] = [strL "bug-fix-cascade"] ∧
    (analyzeChanges [chgB1, chgB2, chgB3] cfgDefault [] 3 3).map
        (fun m => (m.Action, m.Scope)) = some (strL "fix", strL "internal") := by
  decide

/-- C3 counterexample: two modified migration files trigger exactly the
database-migration pattern, yet the analysis result keeps the step-2
action "refactor" and the default purpose "general update": the
database-migration pattern (like config-update and api-redesign) is
detected but never overrides Action or Purpose. -/
theorem C3_counterexample_db_migration_no_override :
    detectMultiFilePatterns [chgM1, chgM2] = [strL "database-migration"] ∧
    (analyzeChanges [chgM1, chgM2] cfgDefault [] 0 0).map (fun m => (m.Action, m.Purpose)) =
      some (strL "refactor", strL "general update") := by
  decide

/-- C5 counterexample: a single modified markdown file takes the docs-only
fast path, whose returned record has an empty Topic, refuting the claim
that Topic is never the empty string. -/
theorem C5_counterexample_docs_topic_empty :
    (analyzeChanges [chgDocs] cfgDefault [] 0 0).map (fun m => m.Topic) = some [] ∧
    analyzeChanges [chgDocs] cfgDefault [] 0 0 ≠ none := by
  decide

/-- C2 counterexample: with two configured actions scoring the same
positive total on the same diff, the keyword-scoring fallback returns one
of the tied actions (the first in iteration order) rather than returning
no action and falling through to the legacy rule. -/
theorem C2_counterexample_tie_returns_action :
    keywordScore (toLowerS (concatDiffs [chgTie])) [(strL "x", 1)] =
      keywordScore (toLowerS (concatDiffs [chgTie])) [(strL "x", 1)] ∧
    determineActionByKeywordScoring [chgTie] cfgTie = strL "feat" ∧
    strL "feat" ≠ [] := by
  decide

/-- C8 counterexample: the normalization is not idempotent: on "(   ):"
the first pass collapses the three spaces into one, creating the "( ):"
artifact that only the second pass rewrites to ":". -/
theorem C8_counterexample_not_idempotent :
    formatNormalize (formatNormalize (strL "(   ):")) ≠ formatNormalize (strL "(   ):") := by
  decide

end Gitmit

namespace Gitmit

/-- C6 counterexample: for the template "update {item}" (from which
removing the item placeholder leaves "update ") and a context with empty
Item, no detected structures and scope "item", the score gap is 48, less
than the claimed 50: removing the placeholder also removes the text
"item" that had earned the project-scope bonus. -/
theorem C6_counterexample_scope_overlap :
    replaceAll (strL "{item}") [] (strL "update {item}") = strL "update " ∧
    scoreTemplate (strL "update ") ctxC6 - scoreTemplate (strL "update {item}") ctxC6 < 50 := by
  constructor
  · decide
  · have h1 : scoreTemplateH (strL "update ") ctxC6 = 2 := by decide
    have h2 : scoreTemplateH (strL "update {item}") ctxC6 = -94 := by decide
    unfold scoreTemplate
    rw [h1, h2]
    norm_num [Rat.mkRat_eq_div]

theorem inferProjectScope_item_irrelevant (m : CommitMessage) (s : Str) :
    inferProjectScope { m with Item := s } = inferProjectScope m := rfl

/-- C6 amended: a template requiring the item placeholder scores exactly
50 points lower for a context with empty Item and no detected structures
than for the identical context whose Item is any non-empty string; the
minus 50 penalty is the only term of scoreTemplate that reads Item. -/
theorem C6_amended_exact_fifty (tmpl : Str) (m : CommitMessage) (s : Str)
    (ht : hasSub tmpl (strL "{item}") = true) (hi : m.Item = [])
    (hf : m.DetectedFunctions = []) (hs : m.DetectedStructs = [])
    (hm : m.DetectedMethods = []) (hne : s ≠ []) :
    scoreTemplate tmpl { m with Item := s } - scoreTemplate tmpl m = 50 := by
  have e1 : itemPenaltyH tmpl s [] [] [] = 0 := by
    simp [itemPenaltyH, ht, hne]
  have e2 : itemPenaltyH tmpl [] [] [] [] = -100 := by
    simp [itemPenaltyH, ht]
  have hH : scoreTemplateH tmpl { m with Item := s } - scoreTemplateH tmpl m = 100 := by
    unfold scoreTemplateH
    rw [inferProjectScope_item_irrelevant]
    dsimp only
    rw [hi, hf, hs, hm, e1, e2]
    ring
  unfold scoreTemplate
  rw [Rat.mkRat_eq_div, Rat.mkRat_eq_div, div_sub_div_same]
  rw [show ((scoreTemplateH tmpl { m with Item := s } : ℚ) - (scoreTemplateH tmpl m : ℚ))
      = ((scoreTemplateH tmpl { m with Item := s } - scoreTemplateH tmpl m : Int) : ℚ) by
    push_cast
    ring]
  rw [hH]
  norm_num

/-- C6 amended witness: instantiating at the bare item placeholder
template and the empty context against Item "x". -/
theorem C6_amended_witness :
    scoreTemplate (strL "{item}") { ({} : CommitMessage) with Item := strL "x" } -
      scoreTemplate (strL "{item}") ({} : CommitMessage) = 50 :=
  C6_amended_exact_fifty (strL "{item}") {} (strL "x") (by decide) rfl rfl rfl rfl (by decide)

theorem replaceAllAux_id {pat rep : Str} :
    ∀ (n : Nat) (s : Str), hasSub s pat = false → replaceAllAux pat rep n s = s := by
  intro n
  induction n with
  | zero => intro s _; cases s <;> rfl
  | succ k ih =>
    intro s h
    cases s with
    | nil => rfl
    | cons c rest =>
      simp only [hasSub, Bool.or_eq_false_iff] at h
      simp only [replaceAllAux, h.1, Bool.false_eq_true, if_false]
      rw [ih rest h.2]

theorem replaceAll_id {pat rep s : Str} (h : hasSub s pat = false) :
    replaceAll pat rep s = s := by
  unfold replaceAll
  split_ifs with hp
  · rfl
  · exact replaceAllAux_id _ _ h

theorem collapseFuel_id (n : Nat) (s : Str) (h : hasSub s (strL "  ") = false) :
    collapseFuel n s = s := by
  cases n <;> simp [collapseFuel, h]

/-- C8 amended: the normalization is the identity on every already-normal
string: trimmed, without repeated spaces, containing none of the
empty-scope artifacts nor the redundant phrases, and at most 72
characters. Hence Format(Format(x)) = Format(x) whenever the first pass
lands in that set; outside it a second application can differ (see the
counterexample, where collapsing spaces manufactures a new artifact). -/
theorem C8_amended_normal_identity (y : Str) (htrim : trimSpace y = y)
    (hsp : hasSub y (strL "  ") = false)
    (h1 : hasSub y (strL "():") = false) (h2 : hasSub y (strL "( ):") = false)
    (h3 : hasSub y (strL "(  ):") = false)
    (h4 : hasSub y (strL "add add new") = false) (h5 : hasSub y (strL "feat feat") = false)
    (h6 : hasSub y (strL "fix fix") = false) (hlen : y.length ≤ 72) :
    formatNormalize y = y := by
  unfold formatNormalize
  have hc : cleanFinalMessage y = y := by
    unfold cleanFinalMessage collapseSpaces
    simp only [replaceAll_id h1, replaceAll_id h2, replaceAll_id h3, htrim]
    exact collapseFuel_id _ _ hsp
  rw [hc]
  unfold formatMessage
  simp only [replaceAll_id h4, replaceAll_id h5, replaceAll_id h6]
  simp [Nat.not_lt.mpr hlen]

/-- C8 amended witness: a short normal-form message is a fixed point of
the normalization. -/
theorem C8_amended_witness :
    formatNormalize (strL "feat: add parser") = strL "feat: add parser" :=
  C8_amended_normal_identity (strL "feat: add parser") (by decide) (by decide) (by decide)
    (by decide) (by decide) (by decide) (by decide) (by decide) (by decide)

end Gitmit

namespace Gitmit

theorem suggestionLoopA_spec (render : Str → Str) (histC : Str → Bool) (maxN : Nat) :
    ∀ (l sugg used : List Str),
      sugg.Nodup → sugg.length ≤ maxN → (∀ x ∈ sugg, x ∈ used) →
      (suggestionLoopA render histC maxN l sugg used).1.Nodup ∧
      (suggestionLoopA render histC maxN l sugg used).1.length ≤ maxN ∧
      (∀ x ∈ (suggestionLoopA render histC maxN l sugg used).1,
        x ∈ (suggestionLoopA render histC maxN l sugg used).2) := by
  intro l
  induction l with
  | nil => intro sugg used hn hl hu; exact ⟨hn, hl, hu⟩
  | cons t rest ih =>
    intro sugg used hn hl hu
    simp only [suggestionLoopA]
    split_ifs with hfull hskip
    · exact ⟨hn, hl, hu⟩
    · exact ih sugg used hn hl hu
    · have hnotused : render t ∉ used := by
        intro hmem
        rw [Bool.or_eq_true] at hskip
        exact hskip (Or.inl ((containsStr_iff used (render t)).mpr hmem))
      apply ih
      · rw [List.nodup_append]
        exact ⟨hn, List.nodup_singleton _,
          fun x hx hy => hnotused (by simp at hy; exact hy ▸ hu x hx)⟩
      · have : sugg.length < maxN := Nat.lt_of_not_le hfull
        simp only [List.length_append, List.length_singleton]
        omega
      · intro x hx
        rcases List.mem_append.mp hx with hx | hx
        · exact List.mem_cons_of_mem _ (hu x hx)
        · simp only [List.mem_singleton] at hx
          exact hx ▸ List.mem_cons_self _ _

theorem suggestionLoopB_spec (render : Str → Str) (maxN : Nat) :
    ∀ (l sugg used : List Str),
      sugg.Nodup → sugg.length ≤ maxN → (∀ x ∈ sugg, x ∈ used) →
      (suggestionLoopB render maxN l sugg used).1.Nodup ∧
      (suggestionLoopB render maxN l sugg used).1.length ≤ maxN ∧
      (∀ x ∈ (suggestionLoopB render maxN l sugg used).1,
        x ∈ (suggestionLoopB render maxN l sugg used).2) := by
  intro l
  induction l with
  | nil => intro sugg used hn hl hu; exact ⟨hn, hl, hu⟩
  | cons t rest ih =>
    intro sugg used hn hl hu
    simp only [suggestionLoopB]
    split_ifs with hfull hskip
    · exact ⟨hn, hl, hu⟩
    · exact ih sugg used hn hl hu
    · have hnotused : render t ∉ used := by
        intro hmem
        exact hskip ((containsStr_iff used (render t)).mpr hmem)
      apply ih
      · rw [List.nodup_append]
        exact ⟨hn, List.nodup_singleton _,
          fun x hx hy => hnotused (by simp at hy; exact hy ▸ hu x hx)⟩
      · have : sugg.length < maxN := Nat.lt_of_not_le hfull
        simp only [List.length_append, List.length_singleton]
        omega
      · intro x hx
        rcases List.mem_append.mp hx with hx | hx
        · exact List.mem_cons_of_mem _ (hu x hx)
        · simp only [List.mem_singleton] at hx
          exact hx ▸ List.mem_cons_self _ _

/-- C7: whenever GetSuggestions succeeds, it returns at most maxN rendered
messages that are pairwise distinct, for every candidate order, render
substitution and history — the backfill loop still refuses messages
already taken in this call. -/
theorem C7_suggestions_bounded_distinct (m : CommitMessage) (scored : List Str)
    (histC : Str → Bool) (maxN : Nat) (out : List Str)
    (h : getSuggestions m scored histC maxN = some out) :
    out.length ≤ maxN ∧ out.Nodup := by
  unfold getSuggestions at h
  split_ifs at h with hempty
  injection h with h2
  subst h2
  unfold getSuggestionsFrom
  dsimp only
  obtain ⟨n1, n2, n3⟩ := suggestionLoopA_spec
    (fun t => cleanFinalMessage
      (renderTemplate m.Topic (enhancedItem m) m.Purpose (suggestSource m) (suggestTarget m) t))
    histC maxN scored [] [] List.nodup_nil (Nat.zero_le _) (by simp)
  split_ifs with hlt
  · obtain ⟨b1, b2, _⟩ := suggestionLoopB_spec _ maxN scored _ _ n1 n2 n3
    exact ⟨b2, b1⟩
  · exact ⟨n2, n1⟩

/-- C7 witness: on one concrete candidate with empty context and history,
the returned singleton respects the bound and distinctness. -/
theorem C7_witness : ([strL "chore: x"]).length ≤ 3 ∧ ([strL "chore: x"]).Nodup := by
  have h : getSuggestions {} [strL "chore: x"] (fun _ => false) 3 =
      some [strL "chore: x"] := by decide
  exact C7_suggestions_bounded_distinct {} [strL "chore: x"] (fun _ => false) 3 _ h

end Gitmit

namespace Gitmit

theorem foldBest_spec (l : List (Str × Int)) :
    ∀ acc : Str × Int,
      acc.2 ≤ (l.foldl (fun a p => if a.2 < p.2 then p else a) acc).2 ∧
      (∀ p ∈ l, p.2 ≤ (l.foldl (fun a p => if a.2 < p.2 then p else a) acc).2) ∧
      ((l.foldl (fun a p => if a.2 < p.2 then p else a) acc) = acc ∨
        (l.foldl (fun a p => if a.2 < p.2 then p else a) acc) ∈ l) := by
  induction l with
  | nil => intro acc; exact ⟨le_refl _, by simp, Or.inl rfl⟩
  | cons q rest ih =>
    intro acc
    simp only [List.foldl_cons]
    by_cases hq : acc.2 < q.2
    · rw [if_pos hq]
      obtain ⟨a1, a2, a3⟩ := ih q
      refine ⟨le_trans (le_of_lt hq) a1, ?_, ?_⟩
      · intro p hp
        rcases List.mem_cons.mp hp with rfl | hp
        · exact a1
        · exact a2 p hp
      · rcases a3 with h | h
        · exact Or.inr (by rw [h]; exact List.mem_cons_self _ _)
        · exact Or.inr (List.mem_cons_of_mem _ h)
    · rw [if_neg hq]
      obtain ⟨a1, a2, a3⟩ := ih acc
      refine ⟨a1, ?_, ?_⟩
      · intro p hp
        rcases List.mem_cons.mp hp with rfl | hp
        · exact le_trans (le_of_not_lt hq) a1
        · exact a2 p hp
      · rcases a3 with h | h
        · exact Or.inl h
        · exact Or.inr (List.mem_cons_of_mem _ h)

/-- C2 amended: in the keyword-scoring fallback the score of each action
is the configured occurrence-times-weight sum over the lowercased
concatenated diffs, and the fallback returns the empty action exactly
when no configured action scores positively; whenever it returns an
action, that action attains the maximum score and its score is positive —
on ties it is the first maximal entry in map-iteration order, not a
fall-through to the legacy rule (the names hypothesis rules out an action
literally named by the empty string). -/
theorem C2_amended_keyword_scoring (changes : List Change) (cfg : Config)
    (hnames : ∀ av ∈ cfg.Keywords, av.1 ≠ ([] : Str)) :
    (determineActionByKeywordScoring changes cfg = [] ↔
      ∀ av ∈ cfg.Keywords, keywordScore (toLowerS (concatDiffs changes)) av.2 ≤ 0) ∧
    (determineActionByKeywordScoring changes cfg ≠ [] →
      ∃ kws, (determineActionByKeywordScoring changes cfg, kws) ∈ cfg.Keywords ∧
        0 < keywordScore (toLowerS (concatDiffs changes)) kws ∧
        ∀ av ∈ cfg.Keywords,
          keywordScore (toLowerS (concatDiffs changes)) av.2 ≤
            keywordScore (toLowerS (concatDiffs changes)) kws) := by
  by_cases hK : cfg.Keywords = []
  · have hr : determineActionByKeywordScoring changes cfg = [] := by
      unfold determineActionByKeywordScoring
      rw [if_pos hK]
    constructor
    · rw [hr, hK]
      simp
    · intro hne
      exact absurd hr hne
  · unfold determineActionByKeywordScoring
    rw [if_neg hK]
    dsimp only
    obtain ⟨f1, f2, f3⟩ := foldBest_spec
      (cfg.Keywords.map (fun av => (av.1, keywordScore (toLowerS (concatDiffs changes)) av.2)))
      (([] : Str), (0 : Int))
    set best := (cfg.Keywords.map
      (fun av => (av.1, keywordScore (toLowerS (concatDiffs changes)) av.2))).foldl
      (fun a p => if a.2 < p.2 then p else a) (([] : Str), (0 : Int)) with hbest
    by_cases hpos : 0 < best.2
    · rw [if_pos hpos]
      have hmem : best ∈ cfg.Keywords.map
          (fun av => (av.1, keywordScore (toLowerS (concatDiffs changes)) av.2)) := by
        rcases f3 with h | h
        · rw [h] at hpos
          exact absurd hpos (by decide)
        · exact h
      obtain ⟨av, havmem, haveq⟩ := List.mem_map.mp hmem
      have hb1 : best.1 = av.1 := by rw [← haveq]
      have hb2 : best.2 = keywordScore (toLowerS (concatDiffs changes)) av.2 := by rw [← haveq]
      constructor
      · constructor
        · intro h
          exact absurd (h ▸ hb1.symm ▸ hnames av havmem) (by simp [← hb1, h])
        · intro hall
          have := hall av havmem
          rw [← hb2] at this
          exact absurd hpos (not_lt.mpr this)
      · intro _
        refine ⟨av.2, ?_, ?_, ?_⟩
        · rw [hb1]
          exact havmem
        · rw [← hb2]
          exact hpos
        · intro av2 hav2
          rw [← hb2]
          exact f2 _ (List.mem_map_of_mem _ hav2)
    · rw [if_neg hpos]
      constructor
      · constructor
        · intro _ av havmem
          have := f2 _ (List.mem_map_of_mem (fun av => (av.1,
            keywordScore (toLowerS (concatDiffs changes)) av.2)) havmem)
          exact le_trans this (le_of_not_lt hpos)
        · intro _
          rfl
      · intro hne
        exact absurd rfl hne

/-- C2 amended witness: a diff with no occurrence of any configured
keyword makes every score zero, so the fallback returns the empty action. -/
theorem C2_amended_witness : determineActionByKeywordScoring [chgY] cfgTie = [] :=
  (C2_amended_keyword_scoring [chgY] cfgTie (by decide)).1.mpr (by decide)

/-- C3 amended: only the four multi-file patterns feature-addition,
bug-fix-cascade, refactor-sweep and test-suite-update override Action and
Purpose, in that priority order; when none of the four is present — in
particular when only config-update, api-redesign or database-migration
triggered — the commit context is returned unchanged. -/
theorem C3_amended_override_priority (pats : List Str) (m : CommitMessage) :
    (containsStr pats (strL "feature-addition") = true →
      (applyMultiPatternOverride pats m).Action = strL "feat" ∧
      (applyMultiPatternOverride pats m).Purpose =
        strL "add new feature across multiple modules") ∧
    (containsStr pats (strL "feature-addition") = false →
      containsStr pats (strL "bug-fix-cascade") = true →
      (applyMultiPatternOverride pats m).Action = strL "fix" ∧
      (applyMultiPatternOverride pats m).Purpose =
        strL "resolve issue across multiple components") ∧
    (containsStr pats (strL "feature-addition") = false →
      containsStr pats (strL "bug-fix-cascade") = false →
      containsStr pats (strL "refactor-sweep") = true →
      (applyMultiPatternOverride pats m).Action = strL "refactor" ∧
      (applyMultiPatternOverride pats m).Purpose =
        strL "restructure and improve code organization") ∧
    (containsStr pats (strL "feature-addition") = false →
      containsStr pats (strL "bug-fix-cascade") = false →
      containsStr pats (strL "refactor-sweep") = false →
      containsStr pats (strL "test-suite-update") = true →
      (applyMultiPatternOverride pats m).Action = strL "test" ∧
      (applyMultiPatternOverride pats m).Purpose = strL "update test suite") ∧
    (containsStr pats (strL "feature-addition") = false →
      containsStr pats (strL "bug-fix-cascade") = false →
      containsStr pats (strL "refactor-sweep") = false →
      containsStr pats (strL "test-suite-update") = false →
      applyMultiPatternOverride pats m = m) := by
  have hlen : ∀ x : Str, containsStr pats x = true → pats.length ≠ 0 := by
    intro x hx
    have := List.ne_nil_of_mem ((containsStr_iff pats x).mp hx)
    simpa [List.length_eq_zero] using this
  refine ⟨?_, ?_, ?_, ?_, ?_⟩
  · intro h
    simp [applyMultiPatternOverride, hlen _ h, h]
  · intro h0 h
    simp [applyMultiPatternOverride, hlen _ h, h0, h]
  · intro h0 h1 h
    simp [applyMultiPatternOverride, hlen _ h, h0, h1, h]
  · intro h0 h1 h2 h
    simp [applyMultiPatternOverride, hlen _ h, h0, h1, h2, h]
  · intro h0 h1 h2 h3
    unfold applyMultiPatternOverride
    split_ifs <;> simp_all

/-- C3 amended witness: with only the database-migration pattern present
the override leaves the commit context untouched. -/
theorem C3_amended_witness :
    applyMultiPatternOverride [strL "database-migration"] {} = ({} : CommitMessage) := by
  have h := C3_amended_override_priority [strL "database-migration"] {}
  exact h.2.2.2.2 (by decide) (by decide) (by decide) (by decide)

end Gitmit

namespace Gitmit

theorem determineAction_mem (c : Change) : determineAction c ∈ commitTypeActions := by
  unfold determineAction
  split_ifs <;> decide

theorem analyzeDiffStat_mem_or_empty (changes : List Change) (cfg : Config) (ta tr : Int) :
    analyzeDiffStat changes cfg ta tr = [] ∨
    analyzeDiffStat changes cfg ta tr ∈ commitTypeActions := by
  unfold analyzeDiffStat
  split_ifs <;> first | exact Or.inl rfl | exact Or.inr (by decide)

theorem kwScoring_empty (changes : List Change) (cfg : Config) (h : cfg.Keywords = []) :
    determineActionByKeywordScoring changes cfg = [] := by
  unfold determineActionByKeywordScoring
  rw [if_pos h]

theorem stepTwoAction_mem (changes : List Change) (cfg : Config) (first : Change)
    (ta tr : Int) (hk : cfg.Keywords = []) :
    stepTwoAction changes cfg first ta tr ∈ commitTypeActions := by
  unfold stepTwoAction
  split_ifs with h1 h2
  · rcases analyzeDiffStat_mem_or_empty changes cfg ta tr with h | h
    · exact absurd h h1
    · exact h
  · exact absurd (kwScoring_empty changes cfg hk) h2
  · exact determineAction_mem first

theorem determinePurpose_ne (cfg : Config) (diff : Str) (h : cfg.KeywordMappings = []) :
    determinePurpose cfg diff ≠ [] := by
  unfold determinePurpose
  rw [h]
  simp only [findLowerMapping]
  cases hf : purposeKeywords.find? (fun kv => hasSub (toLowerS diff) kv.1) with
  | none =>
    simp only [hf]
    decide
  | some kv =>
    have hmem := List.mem_of_find?_eq_some hf
    have hne : ∀ kv2 ∈ purposeKeywords, kv2.2 ≠ ([] : Str) := by decide
    simp only [hf]
    exact hne kv hmem

theorem fallback_action_purpose {changes : List Change} {cfg : Config}
    {pre m : CommitMessage} (h : applySmartFallback changes cfg pre = some m) :
    m.Action ∈ commitTypeActions ∧ m.Action ≠ [] ∧ m.Purpose ≠ [] := by
  have hshared : ∀ {pre2 m2 : CommitMessage}, applySharedFallback changes pre2 = some m2 →
      m2.Action ∈ commitTypeActions ∧ m2.Action ≠ [] ∧ m2.Purpose ≠ [] := by
    intro pre2 m2 h2
    unfold applySharedFallback at h2
    split_ifs at h2 <;>
      first
      | exact Option.noConfusion h2
      | (cases h2; refine ⟨?_, ?_, ?_⟩ <;> (dsimp only; decide))
  rcases changes with _ | ⟨c, rest⟩
  · exact hshared h
  · rcases rest with _ | ⟨c2, rest2⟩
    · simp only [applySmartFallback] at h
      split_ifs at h <;>
        first
        | exact hshared h
        | (cases h; refine ⟨?_, ?_, ?_⟩ <;> (dsimp only; decide))
    · exact hshared h

theorem override_act_purpose (pats : List Str) (m : CommitMessage) :
    ((applyMultiPatternOverride pats m).Action = m.Action ∧
      (applyMultiPatternOverride pats m).Purpose = m.Purpose) ∨
    ((applyMultiPatternOverride pats m).Action ∈ commitTypeActions ∧
      (applyMultiPatternOverride pats m).Purpose ≠ []) := by
  unfold applyMultiPatternOverride
  split_ifs <;>
    first
    | (left; exact ⟨rfl, rfl⟩)
    | (right; constructor <;> (dsimp only; decide))

/-- C5 amended: for every non-empty change set and every configuration
whose keyword-scoring table and keyword mappings are empty (the built-in
default; a populated keyword table can inject arbitrary config-supplied
action names, and the docs-only fast path makes Topic empty, so the
original claim fails), the analysis result has an Action in the closed
commit-type set, a non-empty Action, and a non-empty Purpose. -/
theorem C5_amended_closed_action_set (changes : List Change) (cfg : Config)
    (recentTopic : Str) (ta tr : Int) (m : CommitMessage)
    (hk : cfg.Keywords = []) (hkm : cfg.KeywordMappings = [])
    (h : analyzeChanges changes cfg recentTopic ta tr = some m) :
    m.Action ∈ commitTypeActions ∧ m.Action ≠ [] ∧ m.Purpose ≠ [] := by
  have hnil : ∀ x ∈ commitTypeActions, x ≠ ([] : Str) := by decide
  cases changes with
  | nil => exact Option.noConfusion h
  | cons first rest =>
    rcases hf : applySmartFallback (first :: rest) cfg (aggregateMsg (first :: rest) ta tr)
        with _ | m2
    · unfold analyzeChanges at h
      simp only [hf] at h
      injection h with h2
      rw [← h2]
      clear h2
      rcases override_act_purpose (detectMultiFilePatterns (first :: rest)) _ with
        ⟨ha, hp⟩ | ⟨ha, hp⟩
      · rw [ha, hp]
        refine ⟨?_, ?_, ?_⟩
        · split_ifs <;> exact stepTwoAction_mem (first :: rest) cfg first ta tr hk
        · split_ifs <;> exact hnil _ (stepTwoAction_mem (first :: rest) cfg first ta tr hk)
        · split_ifs <;> exact determinePurpose_ne cfg first.Diff hkm
      · exact ⟨ha, hnil _ ha, hp⟩
    · unfold analyzeChanges at h
      simp only [hf] at h
      injection h with h2
      rw [← h2]
      exact fallback_action_purpose hf

/-- C5 amended witness: the docs-only input under the default
configuration yields Action docs of the closed set and a non-empty
Purpose (its Topic, not claimed here, is empty). -/
theorem C5_amended_witness :
    ((analyzeChanges [chgDocs] cfgDefault [] 0 0).getD {}).Action ∈ commitTypeActions ∧
    ((analyzeChanges [chgDocs] cfgDefault [] 0 0).getD {}).Action ≠ [] ∧
    ((analyzeChanges [chgDocs] cfgDefault [] 0 0).getD {}).Purpose ≠ [] :=
  C5_amended_closed_action_set [chgDocs] cfgDefault [] 0 0 _ rfl rfl (by decide)

end Gitmit
